import Mathlib

/-!
Shallow embedding of the raze ray tracer (computationclub/raze).

JavaScript numbers are modelled as real numbers.  The calls to
Math.random() inside a material's scatter method are modelled by an
explicit stream of vectors (one vector per bounce, holding the three
draws of that bounce) threaded through the recursive tracer, so the
tracer is a function of the scene, the ray, the bounce budget and the
random stream.  The repository contains three variants of the program;
part_001 (the most advanced variant) is the authority for the shared
classes, and the places where index.js or part_000 differ are embedded
separately under their own names.
-/

namespace Raze

open Classical

noncomputable section

/-- Source class Vec: a 3-component vector of JavaScript numbers. -/
structure Vec where
  x : ℝ
  y : ℝ
  z : ℝ

/-- Source class Color: an RGB triple, unclamped. -/
structure Color where
  r : ℝ
  g : ℝ
  b : ℝ

attribute [ext] Vec Color

/-- Source const sqr = n => n * n. -/
def sqr (n : ℝ) : ℝ := n * n

/-- Source Vec.length: Euclidean norm. -/
def Vec.length (v : Vec) : ℝ :=
  Real.sqrt (v.x * v.x + v.y * v.y + v.z * v.z)

/-- Source Vec.normalize: componentwise division by the length.  JavaScript
division never throws; on a zero-length vector the components become NaN and
a Vec object is still constructed and returned. -/
def Vec.normalize (v : Vec) : Vec :=
  ⟨v.x / v.length, v.y / v.length, v.z / v.length⟩

/-- Source Vec.add. -/
def Vec.add (v other : Vec) : Vec :=
  ⟨v.x + other.x, v.y + other.y, v.z + other.z⟩

/-- Source Vec.subtract. -/
def Vec.subtract (v other : Vec) : Vec :=
  ⟨v.x - other.x, v.y - other.y, v.z - other.z⟩

/-- Source Vec.scale. -/
def Vec.scale (v : Vec) (scalar : ℝ) : Vec :=
  ⟨v.x * scalar, v.y * scalar, v.z * scalar⟩

/-- Source Vec.dot. -/
def Vec.dot (v other : Vec) : ℝ :=
  v.x * other.x + v.y * other.y + v.z * other.z

/-- Source Color.add. -/
def Color.add (c other : Color) : Color :=
  ⟨c.r + other.r, c.g + other.g, c.b + other.b⟩

/-- Source Color.scale. -/
def Color.scale (c : Color) (scalar : ℝ) : Color :=
  ⟨c.r * scalar, c.g * scalar, c.b * scalar⟩

/-- Source class Ray: origin plus direction. -/
structure Ray where
  origin : Vec
  direction : Vec

/-- Source Ray.at. -/
def Ray.at (ray : Ray) (t : ℝ) : Vec :=
  ray.origin.add (ray.direction.scale t)

/-- Source class Film: the constructor takes the topLeft and bottomRight
corners and stores topLeft together with the derived width, height and z. -/
structure Film where
  topLeft : Vec
  width : ℝ
  height : ℝ
  z : ℝ

/-- Source Film constructor. -/
def Film.make (topLeft bottomRight : Vec) : Film :=
  ⟨topLeft, bottomRight.x - topLeft.x, topLeft.y - bottomRight.y, topLeft.z⟩

/-- Source Film.project. -/
def Film.project (f : Film) (x y : ℝ) : Vec :=
  ⟨f.topLeft.x + x * f.width, f.topLeft.y - y * f.height, f.z⟩

/-- Source class Camera. -/
structure Camera where
  eye : Vec
  film : Film

/-- Source Camera.trace of the part_001 variant: direction is the
normalization of the projected film point minus the eye. -/
def Camera.trace (c : Camera) (x y : ℝ) : Ray :=
  ⟨c.eye, ((c.film.project x y).subtract c.eye).normalize⟩

/-- Source Camera.trace of the index.js variant: the projected film point is
normalized directly, without subtracting the eye. -/
def Camera.traceIndexJs (c : Camera) (x y : ℝ) : Ray :=
  ⟨c.eye, (c.film.project x y).normalize⟩

/-- Source Camera.trace of the earliest variant (part_000): the raw projected
film point is used as the direction. -/
def Camera.traceEarliest (c : Camera) (x y : ℝ) : Ray :=
  ⟨c.eye, c.film.project x y⟩

/-- Material data plus its scatter policy.  The last Vec argument of scatter
is the triple of Math.random() draws consumed by that scatter call. -/
structure Material where
  color : Color
  reflectance : ℝ
  scatter : Ray → Vec → Vec → Vec → Vec

/-- Source BlurryReflectiveMaterial.scatter: mirror reflection of the incoming
direction about the normal, plus the random jitter vector scaled by the fixed
fuzz factor 0.1. -/
def blurryScatter (incomingRay : Ray) (_intersectionPoint normal rv : Vec) : Vec :=
  (incomingRay.direction.subtract
      (normal.scale (2 * incomingRay.direction.dot normal))).add (rv.scale 0.1)

/-- Source class BlurryReflectiveMaterial. -/
def BlurryReflectiveMaterial (color : Color) (reflectance : ℝ) : Material :=
  ⟨color, reflectance, blurryScatter⟩

/-- Source class Sphere. -/
structure Sphere where
  center : Vec
  radius : ℝ
  material : Material

/-- Source Sphere.intersect, verbatim: oc, dot (against the normalized
direction), a, b, the miss test a < b, the two candidate roots, the filter
keeping the nonnegative ones, and the first remaining root. -/
def Sphere.intersect (s : Sphere) (ray : Ray) : Option ℝ :=
  let oc := ray.origin.subtract s.center
  let dot := (ray.direction.normalize).dot oc
  let a := sqr dot
  let b := sqr oc.length - sqr s.radius
  if a < b then none
  else
    let sq := Real.sqrt (a - b)
    let ts := List.filter (fun t => decide (0 ≤ t)) [-dot - sq, -dot + sq]
    ts.head?

/-- Source Sphere.surfaceNormal. -/
def Sphere.surfaceNormal (s : Sphere) (point : Vec) : Vec :=
  (point.subtract s.center).normalize

/-- Source Sphere.colorAt. -/
def Sphere.colorAt (s : Sphere) (_point : Vec) : Color := s.material.color

/-- Source class Plane. -/
structure Plane where
  point : Vec
  normal : Vec
  material : Material

/-- Source Plane constructor: the stored normal is normalized once. -/
def Plane.make (point normal : Vec) (material : Material) : Plane :=
  ⟨point, normal.normalize, material⟩

/-- Source Plane.intersect. -/
def Plane.intersect (p : Plane) (ray : Ray) : Option ℝ :=
  let ndotl := p.normal.dot ray.direction
  if |ndotl| < 1e-10 then none
  else
    let t := p.normal.dot (p.point.subtract ray.origin) / ndotl
    if t < 0 then none else some t

/-- Source Plane.surfaceNormal. -/
def Plane.surfaceNormal (p : Plane) (_point : Vec) : Vec := p.normal

/-- Source Plane.colorAt: checkerboard keyed on round(x) + round(z) parity. -/
def Plane.colorAt (p : Plane) (point : Vec) : Color :=
  if (round point.x + round point.z) % 2 = 0 then ⟨10, 10, 10⟩ else p.material.color

/-- The closed set of primitives appearing in the scene. -/
inductive Object where
  | sphere (s : Sphere)
  | plane (p : Plane)

/-- Dynamic dispatch of the material property. -/
def Object.material : Object → Material
  | .sphere s => s.material
  | .plane p => p.material

/-- Dynamic dispatch of intersect. -/
def Object.intersect : Object → Ray → Option ℝ
  | .sphere s => s.intersect
  | .plane p => p.intersect

/-- Dynamic dispatch of surfaceNormal. -/
def Object.surfaceNormal : Object → Vec → Vec
  | .sphere s => s.surfaceNormal
  | .plane p => p.surfaceNormal

/-- Dynamic dispatch of colorAt. -/
def Object.colorAt : Object → Vec → Color
  | .sphere s => s.colorAt
  | .plane p => p.colorAt

/-- Source class Light. -/
structure Light where
  center : Vec
  power : ℝ

/-- The occlusion test inside Light.illuminate: some object's intersection t
with the shadow ray satisfies 1e-10 < t < distance-to-light. -/
def Light.occludes (l : Light) (point : Vec) (objects : List Object) : Prop :=
  ∃ o ∈ objects, ∃ t, o.intersect ⟨point, (l.center.subtract point).normalize⟩ = some t ∧
    1e-10 < t ∧ t < (l.center.subtract point).length

/-- Source Light.illuminate: zero when occluded, otherwise the Lambertian
power term clamped below at zero. -/
def Light.illuminate (l : Light) (point normal : Vec) (objects : List Object) : ℝ :=
  if l.occludes point objects then 0
  else
    let pointToLight := l.center.subtract point
    let len := pointToLight.length
    let cosine := pointToLight.dot normal / len
    let power := l.power * cosine / (4 * Real.pi * sqr len)
    if 0 < power then power else 0

/-- The nearest-hit loop at the top of the source trace function: the running
minimum starts at t = Infinity with no object, and each object whose
intersection is non-null and strictly below the minimum replaces it. -/
def nearestHit (objects : List Object) (ray : Ray) : Option (ℝ × Object) :=
  objects.foldl
    (fun best obj =>
      match obj.intersect ray with
      | none => best
      | some t =>
        match best with
        | none => some (t, obj)
        | some (tmin, o) => if t < tmin then some (t, obj) else some (tmin, o))
    none

/-- Source trace of the part_001 variant.  The bounce budget is an integer,
checked against zero exactly as the source does; rnd is the stream of random
draw triples, one consumed per bounce by the material scatter call. -/
def trace (objects : List Object) (lights : List Light) (rnd : ℕ → Vec)
    (ray : Ray) (remainingCalls : ℤ) : Option Color :=
  if h : remainingCalls ≤ 0 then none
  else
    match nearestHit objects ray with
    | none => none
    | some (t, object) =>
      let intersection := ray.at t
      let normal := object.surfaceNormal intersection
      let energy := lights.foldl
        (fun acc light => acc + light.illuminate intersection normal objects) 0
      let color := object.colorAt intersection
      let shade := color.scale energy
      let rPrime := object.material.scatter ray intersection normal (rnd 0)
      let justOutsideSphere := intersection.add (normal.scale 1e-10)
      let reflectionRay : Ray := ⟨justOutsideSphere, rPrime⟩
      let reflectionColor :=
        (trace objects lights (fun k => rnd (k + 1)) reflectionRay (remainingCalls - 1)).getD
          ⟨0, 0, 0⟩
      let albedo := color.scale (object.material.reflectance / 255)
      some ((shade.scale (1 - object.material.reflectance)).add
        ⟨reflectionColor.r * albedo.r, reflectionColor.g * albedo.g,
          reflectionColor.b * albedo.b⟩)
termination_by remainingCalls.toNat
decreasing_by omega

/-- Source background: white scaled by max(0.1, direction.y). -/
def background (ray : Ray) : Color :=
  (Color.mk 255 255 255).scale (max 0.1 ray.direction.y)

/-- The body of the source render loop for one pixel at normalized film
coordinates: the camera ray is traced with budget 50 and the background
color substitutes for a miss. -/
def renderPixel (objects : List Object) (lights : List Light) (rnd : ℕ → Vec)
    (camera : Camera) (x y : ℝ) : Color :=
  let ray := camera.trace x y
  (trace objects lights rnd ray 50).getD (background ray)

/-- The spec's description of sphere intersection: on a non-miss, discard the
negative candidate roots and return the smallest remaining one, or no hit if
both are negative. -/
def Sphere.intersectSpec (s : Sphere) (ray : Ray) : Option ℝ :=
  let oc := ray.origin.subtract s.center
  let dot := (ray.direction.normalize).dot oc
  let a := sqr dot
  let b := sqr oc.length - sqr s.radius
  if a < b then none
  else
    let sq := Real.sqrt (a - b)
    let root1 := -dot - sq
    let root2 := -dot + sq
    if 0 ≤ root1 ∧ 0 ≤ root2 then some (min root1 root2)
    else if 0 ≤ root1 then some root1
    else if 0 ≤ root2 then some root2
    else none

/-- The spec's description of normalize: a defined hard failure (none) when
the length is exactly zero, otherwise the componentwise division. -/
def Vec.normalizeSpec (v : Vec) : Option Vec :=
  if v.length = 0 then none
  else some ⟨v.x / v.length, v.y / v.length, v.z / v.length⟩

/-- The observable outcome of running the source normalize: JavaScript
division never throws, so a vector is always returned (with NaN components
in the zero-length case). -/
def Vec.normalizeResult (v : Vec) : Option Vec := some v.normalize

/-! Helper lemmas for evaluating the embedded functions. -/

lemma sqrtEval (x y : ℝ) (hy : 0 ≤ y) (h : y * y = x) : Real.sqrt x = y := by
  rw [← h, Real.sqrt_mul_self hy]

lemma lengthEval (v : Vec) (l : ℝ) (h0 : 0 ≤ l)
    (h : l * l = v.x * v.x + v.y * v.y + v.z * v.z) : v.length = l :=
  sqrtEval _ l h0 h

lemma normalizeEval (v : Vec) (l : ℝ) (h0 : 0 ≤ l)
    (h : l * l = v.x * v.x + v.y * v.y + v.z * v.z) :
    v.normalize = ⟨v.x / l, v.y / l, v.z / l⟩ := by
  unfold Vec.normalize
  rw [lengthEval v l h0 h]

lemma sqrLength (v : Vec) : sqr v.length = v.x * v.x + v.y * v.y + v.z * v.z :=
  Real.mul_self_sqrt
    (by nlinarith [mul_self_nonneg v.x, mul_self_nonneg v.y, mul_self_nonneg v.z])

lemma filterTwoHead (p : ℝ → Bool) (r1 r2 : ℝ) :
    (List.filter p [r1, r2]).head? =
      if p r1 then some r1 else if p r2 then some r2 else none := by
  by_cases h1 : p r1 <;> by_cases h2 : p r2 <;> simp [h1, h2]

/-- Master evaluation shape for Sphere.intersect once the dot product dot,
the quantity b and a nonnegative square root sq of a - b are known. -/
lemma sphereIntersectEval (s : Sphere) (ray : Ray) (dot b sq : ℝ)
    (hdot : (ray.direction.normalize).dot (ray.origin.subtract s.center) = dot)
    (hb : sqr (ray.origin.subtract s.center).length - sqr s.radius = b)
    (hsq : 0 ≤ sq) (hab : sq * sq = sqr dot - b) :
    s.intersect ray =
      if 0 ≤ -dot - sq then some (-dot - sq)
      else if 0 ≤ -dot + sq then some (-dot + sq)
      else none := by
  simp only [Sphere.intersect]
  rw [hdot, hb]
  have hnlt : ¬ sqr dot < b := not_lt.mpr (by nlinarith [mul_self_nonneg sq])
  rw [if_neg hnlt, ← hab, Real.sqrt_mul_self hsq, filterTwoHead]
  simp only [decide_eq_true_eq]

/-- Evaluation shape for the miss case a < b. -/
lemma sphereIntersectMiss (s : Sphere) (ray : Ray) (dot b : ℝ)
    (hdot : (ray.direction.normalize).dot (ray.origin.subtract s.center) = dot)
    (hb : sqr (ray.origin.subtract s.center).length - sqr s.radius = b)
    (hlt : sqr dot < b) :
    s.intersect ray = none := by
  simp only [Sphere.intersect]
  rw [hdot, hb, if_pos hlt]

lemma foldlAddMap {α : Type} (f : α → ℝ) (l : List α) (init : ℝ) :
    l.foldl (fun acc x => acc + f x) init = init + (l.map f).sum := by
  induction l generalizing init with
  | nil => simp
  | cons a l ih => simp [List.foldl, ih]; ring

lemma trace_nonpos (objects : List Object) (lights : List Light) (rnd : ℕ → Vec)
    (ray : Ray) {rc : ℤ} (h : rc ≤ 0) :
    trace objects lights rnd ray rc = none := by
  rw [trace]
  exact dif_pos h

lemma trace_nohit (objects : List Object) (lights : List Light) (rnd : ℕ → Vec)
    (ray : Ray) {rc : ℤ} (hhit : nearestHit objects ray = none) :
    trace objects lights rnd ray rc = none := by
  by_cases h : rc ≤ 0
  · exact trace_nonpos objects lights rnd ray h
  · rw [trace, dif_neg h, hhit]

/-- One unfolding of trace at a hit, with all local bindings expanded. -/
lemma trace_hit (objects : List Object) (lights : List Light) (rnd : ℕ → Vec)
    (ray : Ray) {rc : ℤ} (h : ¬ rc ≤ 0) {t : ℝ} {obj : Object}
    (hhit : nearestHit objects ray = some (t, obj)) :
    trace objects lights rnd ray rc =
      some ((((obj.colorAt (ray.at t)).scale
          (lights.foldl
            (fun acc light =>
              acc + light.illuminate (ray.at t) (obj.surfaceNormal (ray.at t)) objects)
            0)).scale (1 - obj.material.reflectance)).add
        ⟨((trace objects lights (fun k => rnd (k + 1))
              ⟨(ray.at t).add ((obj.surfaceNormal (ray.at t)).scale 1e-10),
                obj.material.scatter ray (ray.at t) (obj.surfaceNormal (ray.at t)) (rnd 0)⟩
              (rc - 1)).getD ⟨0, 0, 0⟩).r *
            ((obj.colorAt (ray.at t)).scale (obj.material.reflectance / 255)).r,
          ((trace objects lights (fun k => rnd (k + 1))
              ⟨(ray.at t).add ((obj.surfaceNormal (ray.at t)).scale 1e-10),
                obj.material.scatter ray (ray.at t) (obj.surfaceNormal (ray.at t)) (rnd 0)⟩
              (rc - 1)).getD ⟨0, 0, 0⟩).g *
            ((obj.colorAt (ray.at t)).scale (obj.material.reflectance / 255)).g,
          ((trace objects lights (fun k => rnd (k + 1))
              ⟨(ray.at t).add ((obj.surfaceNormal (ray.at t)).scale 1e-10),
                obj.material.scatter ray (ray.at t) (obj.surfaceNormal (ray.at t)) (rnd 0)⟩
              (rc - 1)).getD ⟨0, 0, 0⟩).b *
            ((obj.colorAt (ray.at t)).scale (obj.material.reflectance / 255)).b⟩) := by
  rw [trace, dif_neg h, hhit]

lemma normalize_scale (v : Vec) {k : ℝ} (hk : 0 < k) :
    (v.scale k).normalize = v.normalize := by
  have hlen : (v.scale k).length = k * v.length := by
    unfold Vec.length Vec.scale
    simp only
    rw [show v.x * k * (v.x * k) + v.y * k * (v.y * k) + v.z * k * (v.z * k)
        = (k * k) * (v.x * v.x + v.y * v.y + v.z * v.z) by ring]
    rw [Real.sqrt_mul (by positivity) _, Real.sqrt_mul_self hk.le]
  unfold Vec.normalize
  rw [hlen]
  simp only [Vec.scale, Vec.mk.injEq]
  refine ⟨?_, ?_, ?_⟩ <;>
    rw [mul_comm _ k, mul_div_mul_left _ _ (ne_of_gt hk)]

lemma sphereIntersect_scale (s : Sphere) (o d : Vec) {k : ℝ} (hk : 0 < k) :
    s.intersect ⟨o, d.scale k⟩ = s.intersect ⟨o, d⟩ := by
  simp only [Sphere.intersect]
  rw [normalize_scale d hk]

lemma illuminate_occluded (l : Light) (point normal : Vec) (objects : List Object)
    (hocc : l.occludes point objects) :
    l.illuminate point normal objects = 0 := by
  simp only [Light.illuminate]
  rw [if_pos hocc]

lemma illuminate_clear (l : Light) (point normal : Vec) (objects : List Object)
    (hnocc : ¬ l.occludes point objects) :
    l.illuminate point normal objects =
      if 0 < l.power * ((l.center.subtract point).dot normal / (l.center.subtract point).length) /
            (4 * Real.pi * sqr (l.center.subtract point).length)
      then l.power * ((l.center.subtract point).dot normal / (l.center.subtract point).length) /
            (4 * Real.pi * sqr (l.center.subtract point).length)
      else 0 := by
  simp only [Light.illuminate]
  rw [if_neg hnocc]

lemma ifPosEqMax (p : ℝ) : (if 0 < p then p else 0) = max p 0 := by
  rcases le_or_lt p 0 with h | h
  · rw [if_neg (not_lt.mpr h)]
    exact (max_eq_right h).symm
  · rw [if_pos h]
    exact (max_eq_left h.le).symm

lemma trace_congr_aux (n : ℕ) :
    ∀ (objects : List Object) (lights : List Light) (rnd1 rnd2 : ℕ → Vec) (ray : Ray)
      (rc : ℤ), rc.toNat ≤ n → (∀ k, k < rc.toNat → rnd1 k = rnd2 k) →
      trace objects lights rnd1 ray rc = trace objects lights rnd2 ray rc := by
  induction n with
  | zero =>
    intro objects lights rnd1 rnd2 ray rc hle _
    have h0 : rc ≤ 0 := by omega
    rw [trace_nonpos _ _ _ _ h0, trace_nonpos _ _ _ _ h0]
  | succ n ih =>
    intro objects lights rnd1 rnd2 ray rc hle hagree
    by_cases h0 : rc ≤ 0
    · rw [trace_nonpos _ _ _ _ h0, trace_nonpos _ _ _ _ h0]
    · cases hhit : nearestHit objects ray with
      | none => rw [trace_nohit _ _ _ _ hhit, trace_nohit _ _ _ _ hhit]
      | some pr =>
        obtain ⟨t, obj⟩ := pr
        rw [trace_hit _ _ _ _ h0 hhit, trace_hit _ _ _ _ h0 hhit]
        have hrnd0 : rnd1 0 = rnd2 0 := hagree 0 (by omega)
        rw [hrnd0]
        have hrec : trace objects lights (fun k => rnd1 (k + 1))
            ⟨(ray.at t).add ((obj.surfaceNormal (ray.at t)).scale 1e-10),
              obj.material.scatter ray (ray.at t) (obj.surfaceNormal (ray.at t)) (rnd2 0)⟩
            (rc - 1) =
            trace objects lights (fun k => rnd2 (k + 1))
            ⟨(ray.at t).add ((obj.surfaceNormal (ray.at t)).scale 1e-10),
              obj.material.scatter ray (ray.at t) (obj.surfaceNormal (ray.at t)) (rnd2 0)⟩
            (rc - 1) :=
          ih objects lights _ _ _ _ (by omega) (fun k hk => hagree (k + 1) (by omega))
        rw [hrec]

/-- When the stored direction is unit length, a returned intersection
parameter really is a point on the sphere surface. -/
lemma sphereIntersect_onSurface (s : Sphere) (ray : Ray) {t : ℝ}
    (hrad : 0 ≤ s.radius) (hunit : ray.direction.length = 1)
    (hsome : s.intersect ray = some t) :
    ((ray.at t).subtract s.center).length = s.radius := by
  have hdsum : ray.direction.x * ray.direction.x + ray.direction.y * ray.direction.y +
      ray.direction.z * ray.direction.z = 1 := by
    have h := sqrLength ray.direction
    rw [hunit] at h
    simpa [sqr] using h.symm
  have hnorm : ray.direction.normalize = ray.direction := by
    unfold Vec.normalize
    rw [hunit, div_one, div_one, div_one]
  set oc := ray.origin.subtract s.center with hoc
  set dot := ray.direction.dot oc with hdot
  set b := sqr oc.length - sqr s.radius with hb
  by_cases hmiss : sqr dot < b
  · rw [sphereIntersectMiss s ray dot b (by rw [hnorm]) rfl hmiss] at hsome
    exact absurd hsome (by simp)
  · have hsq : (0:ℝ) ≤ Real.sqrt (sqr dot - b) := Real.sqrt_nonneg _
    have hab : Real.sqrt (sqr dot - b) * Real.sqrt (sqr dot - b) = sqr dot - b :=
      Real.mul_self_sqrt (by linarith [not_lt.mp hmiss])
    rw [sphereIntersectEval s ray dot b _ (by rw [hnorm]) rfl hsq hab] at hsome
    set sq := Real.sqrt (sqr dot - b) with hsqdef
    have hkey : (t + dot) * (t + dot) = sqr dot - b := by
      split_ifs at hsome with h1 h2
      · have ht := Option.some.inj hsome
        rw [← ht]
        nlinarith [hab]
      · have ht := Option.some.inj hsome
        rw [← ht]
        nlinarith [hab]
    have hsub : (ray.at t).subtract s.center =
        ⟨oc.x + ray.direction.x * t, oc.y + ray.direction.y * t,
          oc.z + ray.direction.z * t⟩ := by
      apply Vec.ext <;> simp only [Ray.at, Vec.add, Vec.scale, Vec.subtract, hoc] <;> ring
    rw [hsub]
    apply lengthEval _ s.radius hrad
    have hocsum : oc.x * oc.x + oc.y * oc.y + oc.z * oc.z = sqr oc.length :=
      (sqrLength oc).symm
    have hdotdef : dot = ray.direction.x * oc.x + ray.direction.y * oc.y +
        ray.direction.z * oc.z := by
      rw [hdot]
      rfl
    have e1 : (oc.x + ray.direction.x * t) * (oc.x + ray.direction.x * t) +
        (oc.y + ray.direction.y * t) * (oc.y + ray.direction.y * t) +
        (oc.z + ray.direction.z * t) * (oc.z + ray.direction.z * t) =
        (oc.x * oc.x + oc.y * oc.y + oc.z * oc.z) +
          2 * t * (ray.direction.x * oc.x + ray.direction.y * oc.y +
            ray.direction.z * oc.z) +
          t * t * (ray.direction.x * ray.direction.x + ray.direction.y * ray.direction.y +
            ray.direction.z * ray.direction.z) := by
      ring
    simp only
    rw [e1, hdsum, ← hdotdef, hocsum]
    simp only [sqr] at hb hkey ⊢
    linear_combination hb - hkey

/-! Evaluation helpers for concrete scenes living on the z axis. -/

lemma znormalizePos (dz : ℝ) (h : 0 < dz) : (Vec.mk 0 0 dz).normalize = ⟨0, 0, 1⟩ := by
  rw [normalizeEval ⟨0, 0, dz⟩ dz h.le (by ring)]
  simp [div_self (ne_of_gt h)]

lemma znormalizeNeg (dz : ℝ) (h : dz < 0) : (Vec.mk 0 0 dz).normalize = ⟨0, 0, -1⟩ := by
  rw [normalizeEval ⟨0, 0, dz⟩ (-dz) (by linarith) (by ring)]
  have hne : dz ≠ 0 := ne_of_lt h
  simp only [Vec.mk.injEq]
  refine ⟨by simp, by simp, ?_⟩
  rw [div_neg, div_self hne]

/-- Intersection of a z-axis sphere with a ray travelling along +z. -/
lemma zsphereIntersectPos (m : Material) (cz r oz dz : ℝ) (hdz : 0 < dz) (hr : 0 ≤ r) :
    (Sphere.mk ⟨0, 0, cz⟩ r m).intersect ⟨⟨0, 0, oz⟩, ⟨0, 0, dz⟩⟩ =
      if 0 ≤ -(oz - cz) - r then some (-(oz - cz) - r)
      else if 0 ≤ -(oz - cz) + r then some (-(oz - cz) + r)
      else none := by
  refine sphereIntersectEval _ _ (oz - cz) ((oz - cz) * (oz - cz) - r * r) r ?_ ?_ hr ?_
  · show ((Vec.mk 0 0 dz).normalize).dot ((Vec.mk 0 0 oz).subtract ⟨0, 0, cz⟩) = oz - cz
    rw [znormalizePos dz hdz]
    simp [Vec.dot, Vec.subtract]
  · show sqr ((Vec.mk 0 0 oz).subtract ⟨0, 0, cz⟩).length - sqr r = _
    rw [sqrLength]
    simp only [Vec.subtract, sqr]
    ring
  · simp only [sqr]
    ring

/-- Intersection of a z-axis sphere with a ray travelling along -z. -/
lemma zsphereIntersectNeg (m : Material) (cz r oz dz : ℝ) (hdz : dz < 0) (hr : 0 ≤ r) :
    (Sphere.mk ⟨0, 0, cz⟩ r m).intersect ⟨⟨0, 0, oz⟩, ⟨0, 0, dz⟩⟩ =
      if 0 ≤ (oz - cz) - r then some ((oz - cz) - r)
      else if 0 ≤ (oz - cz) + r then some ((oz - cz) + r)
      else none := by
  have h := sphereIntersectEval (Sphere.mk ⟨0, 0, cz⟩ r m) ⟨⟨0, 0, oz⟩, ⟨0, 0, dz⟩⟩
    (-(oz - cz)) ((oz - cz) * (oz - cz) - r * r) r ?_ ?_ hr ?_
  · rw [h]
    norm_num
  · show ((Vec.mk 0 0 dz).normalize).dot ((Vec.mk 0 0 oz).subtract ⟨0, 0, cz⟩) = -(oz - cz)
    rw [znormalizeNeg dz hdz]
    simp [Vec.dot, Vec.subtract]
  · show sqr ((Vec.mk 0 0 oz).subtract ⟨0, 0, cz⟩).length - sqr r = _
    rw [sqrLength]
    simp only [Vec.subtract, sqr]
    ring
  · simp only [sqr]
    ring

lemma nearestHitSingleton (o : Object) (ray : Ray) (t : ℝ) (h : o.intersect ray = some t) :
    nearestHit [o] ray = some (t, o) := by
  simp [nearestHit, List.foldl, h]

lemma nearestHitPairFirst (o1 o2 : Object) (ray : Ray) (t1 : ℝ)
    (h1 : o1.intersect ray = some t1) (h2 : o2.intersect ray = none) :
    nearestHit [o1, o2] ray = some (t1, o1) := by
  simp [nearestHit, List.foldl, h1, h2]

lemma nearestHitPairSecond (o1 o2 : Object) (ray : Ray) (t2 : ℝ)
    (h1 : o1.intersect ray = none) (h2 : o2.intersect ray = some t2) :
    nearestHit [o1, o2] ray = some (t2, o2) := by
  simp [nearestHit, List.foldl, h1, h2]

/-! Concrete scene material used by witnesses. -/

/-- A plain non-reflective material for concrete test scenes. -/
def mat0 : Material := BlurryReflectiveMaterial ⟨0, 0, 0⟩ 0

/-- The primary test ray: from the origin straight along +z. -/
def rayZ : Ray := ⟨⟨0, 0, 0⟩, ⟨0, 0, 1⟩⟩

/-- A random stream that always draws zero. -/
def rndZero : ℕ → Vec := fun _ => ⟨0, 0, 0⟩

/-! The claims. -/

/-- C4: for every ray and every scene, the recursive tracer called with a
remaining bounce budget of 0 (or any budget at most 0) returns no hit,
without examining any scene object (the objects list is arbitrary). -/
theorem trace_depth_exhausted (objects : List Object) (lights : List Light)
    (rnd : ℕ → Vec) (ray : Ray) (rc : ℤ) (h : rc ≤ 0) :
    trace objects lights rnd ray rc = none :=
  trace_nonpos objects lights rnd ray h

theorem trace_depth_exhausted_witness :
    trace [Object.sphere ⟨⟨0, 0, 5⟩, 1, mat0⟩] [] rndZero rayZ 0 = none :=
  trace_depth_exhausted [Object.sphere ⟨⟨0, 0, 5⟩, 1, mat0⟩] [] rndZero rayZ 0 (by norm_num)

/-- C2: Sphere.intersect computes oc, dot, a, b as described, returns no hit
when a < b, and otherwise discards the negative candidate roots and returns
the smallest remaining one (none if both are negative) — exactly the
specification-level description intersectSpec. -/
theorem sphere_intersect_matches_spec (s : Sphere) (ray : Ray) :
    s.intersect ray = s.intersectSpec ray := by
  simp only [Sphere.intersect, Sphere.intersectSpec]
  set dot := (ray.direction.normalize).dot (ray.origin.subtract s.center) with hdot
  set b := sqr (ray.origin.subtract s.center).length - sqr s.radius with hb
  by_cases hab : sqr dot < b
  · rw [if_pos hab, if_pos hab]
  · rw [if_neg hab, if_neg hab]
    set sq := Real.sqrt (sqr dot - b) with hsq
    have h0 : 0 ≤ sq := Real.sqrt_nonneg _
    have hle : -dot - sq ≤ -dot + sq := by linarith
    rw [filterTwoHead]
    simp only [decide_eq_true_eq]
    by_cases h1 : 0 ≤ -dot - sq <;> by_cases h2 : 0 ≤ -dot + sq
    · rw [if_pos h1, if_pos ⟨h1, h2⟩, min_eq_left hle]
    · exact absurd (h1.trans hle) h2
    · rw [if_neg h1, if_pos h2, if_neg (fun hc : _ ∧ _ => h1 hc.1)]
    · rw [if_neg h1, if_neg h2, if_neg (fun hc : _ ∧ _ => h1 hc.1)]

/-- C6: Plane.intersect returns no hit when the absolute dot of the stored
normal with the ray direction is below 1e-10 (parallel ray, any origin);
otherwise it forms t = normal·(point − origin) / ndotl, returns no hit for
negative t and t itself otherwise. -/
theorem plane_intersect_behavior (p : Plane) (ray : Ray) :
    (|p.normal.dot ray.direction| < 1e-10 → p.intersect ray = none) ∧
    (¬ |p.normal.dot ray.direction| < 1e-10 →
      (p.normal.dot (p.point.subtract ray.origin) / p.normal.dot ray.direction < 0 →
        p.intersect ray = none) ∧
      (¬ p.normal.dot (p.point.subtract ray.origin) / p.normal.dot ray.direction < 0 →
        p.intersect ray =
          some (p.normal.dot (p.point.subtract ray.origin) / p.normal.dot ray.direction))) := by
  refine ⟨fun hpar => ?_, fun hpar => ⟨fun hneg => ?_, fun hneg => ?_⟩⟩ <;>
    simp only [Plane.intersect]
  · rw [if_pos hpar]
  · rw [if_neg hpar, if_pos hneg]
  · rw [if_neg hpar, if_neg hneg]

/-- A concrete plane for the C6 witness: the ground plane y = 0. -/
def planeW : Plane := ⟨⟨0, 0, 0⟩, ⟨0, 1, 0⟩, mat0⟩

theorem plane_intersect_behavior_witness :
    planeW.intersect ⟨⟨0, 7, 0⟩, ⟨1, 0, 0⟩⟩ = none ∧
    planeW.intersect ⟨⟨0, 5, 0⟩, ⟨0, -1, 0⟩⟩ = some 5 := by
  constructor
  · apply (plane_intersect_behavior planeW ⟨⟨0, 7, 0⟩, ⟨1, 0, 0⟩⟩).1
    norm_num [planeW, Vec.dot]
  · have hpar : ¬ |planeW.normal.dot (Ray.direction ⟨⟨0, 5, 0⟩, ⟨0, -1, 0⟩⟩)| < 1e-10 := by
      norm_num [planeW, Vec.dot]
    have hval : planeW.normal.dot (planeW.point.subtract (Ray.origin ⟨⟨0, 5, 0⟩, ⟨0, -1, 0⟩⟩)) /
        planeW.normal.dot (Ray.direction ⟨⟨0, 5, 0⟩, ⟨0, -1, 0⟩⟩) = 5 := by
      norm_num [planeW, Vec.dot, Vec.subtract]
    have h := ((plane_intersect_behavior planeW ⟨⟨0, 5, 0⟩, ⟨0, -1, 0⟩⟩).2 hpar).2
      (by rw [hval]; norm_num)
    rw [h, hval]

/-- C5 counterexample: the index.js variant of Camera.trace does not subtract
the eye before normalizing, so with a nonzero eye its direction differs from
the normalization of project(x,y) − eye. -/
def camWrong : Camera := ⟨⟨1, 0, 0⟩, Film.make ⟨0, 0, 1⟩ ⟨2, -1, 1⟩⟩

theorem camera_trace_counterexample :
    camWrong.traceIndexJs 0 0 ≠
      ⟨camWrong.eye, ((camWrong.film.project 0 0).subtract camWrong.eye).normalize⟩ := by
  have hproj : camWrong.film.project 0 0 = ⟨0, 0, 1⟩ := by
    apply Vec.ext <;> simp [camWrong, Film.make, Film.project]
  have hL : (Vec.mk 0 0 1).normalize = ⟨0, 0, 1⟩ := znormalizePos 1 one_pos
  have hsub : (Vec.mk 0 0 1).subtract camWrong.eye = ⟨-1, 0, 1⟩ := by
    apply Vec.ext <;> simp [camWrong, Vec.subtract]
  have hlen : (Vec.mk (-1) 0 1).length = Real.sqrt 2 := by
    unfold Vec.length
    norm_num
  intro hEq
  have hdir := congrArg (fun r : Ray => r.direction.x) hEq
  simp only [Camera.traceIndexJs, hproj, hsub, hL] at hdir
  rw [show (Vec.mk (-1) 0 1).normalize.x = -1 / Real.sqrt 2 by
    unfold Vec.normalize; rw [hlen]] at hdir
  have h2 : 0 < Real.sqrt 2 := Real.sqrt_pos.mpr (by norm_num)
  have hneg : -1 / Real.sqrt 2 < 0 := div_neg_of_neg_of_pos (by norm_num) h2
  rw [← hdir] at hneg
  norm_num at hneg

/-- C5 amended: the part_001 Camera.trace normalizes project(x,y) − eye; the
index.js variant normalizes the raw projected point without subtracting the
eye; the earliest variant (part_000) uses the raw projected point. -/
theorem camera_trace_variants (c : Camera) (x y : ℝ) :
    c.trace x y = ⟨c.eye, ((c.film.project x y).subtract c.eye).normalize⟩ ∧
    c.traceIndexJs x y = ⟨c.eye, (c.film.project x y).normalize⟩ ∧
    c.traceEarliest x y = ⟨c.eye, c.film.project x y⟩ :=
  ⟨rfl, rfl, rfl⟩

/-- C7 counterexample: the spec calls normalize of the zero vector a defined
hard failure, but the source never fails — JavaScript division by zero just
produces non-finite components and a Vec is returned. -/
theorem normalize_zero_counterexample :
    Vec.normalizeResult ⟨0, 0, 0⟩ ≠ Vec.normalizeSpec ⟨0, 0, 0⟩ := by
  have hlen : (Vec.mk 0 0 0).length = 0 := lengthEval _ 0 le_rfl (by norm_num)
  simp [Vec.normalizeResult, Vec.normalizeSpec, hlen]

/-- C7 amended: Vec.normalize never signals an error — it always returns the
vector divided componentwise by its Euclidean length (for a zero-length
vector JavaScript division silently produces NaN components); on every
nonzero-length vector the source agrees with the spec's normalize. -/
theorem normalize_total_behavior (v : Vec) :
    Vec.normalizeResult v = some ⟨v.x / v.length, v.y / v.length, v.z / v.length⟩ ∧
    (v.length ≠ 0 → Vec.normalizeSpec v = Vec.normalizeResult v) := by
  refine ⟨rfl, fun h => ?_⟩
  simp [Vec.normalizeSpec, Vec.normalizeResult, Vec.normalize, h]

theorem normalize_total_behavior_witness :
    (Vec.mk 0 0 3).length ≠ 0 ∧
    Vec.normalizeSpec ⟨0, 0, 3⟩ = Vec.normalizeResult ⟨0, 0, 3⟩ := by
  have hlen : (Vec.mk 0 0 3).length = 3 := lengthEval _ 3 (by norm_num) (by norm_num)
  have hne : (Vec.mk 0 0 3).length ≠ 0 := by rw [hlen]; norm_num
  exact ⟨hne, (normalize_total_behavior ⟨0, 0, 3⟩).2 hne⟩

/-- C3: Light.illuminate returns exactly 0 when some object's intersection t
with the shadow ray satisfies 1e-10 < t < dist; otherwise it returns
power·cosine/(4π·dist²) with cosine = pointToLight·normal/dist, clamped so
the result is never negative. -/
theorem light_illuminate_behavior (l : Light) (point normal : Vec) (objects : List Object) :
    ((∃ o ∈ objects, ∃ t,
        o.intersect ⟨point, (l.center.subtract point).normalize⟩ = some t ∧
        1e-10 < t ∧ t < (l.center.subtract point).length) →
      l.illuminate point normal objects = 0) ∧
    (¬ (∃ o ∈ objects, ∃ t,
        o.intersect ⟨point, (l.center.subtract point).normalize⟩ = some t ∧
        1e-10 < t ∧ t < (l.center.subtract point).length) →
      l.illuminate point normal objects =
        max (l.power * ((l.center.subtract point).dot normal / (l.center.subtract point).length) /
          (4 * Real.pi * sqr (l.center.subtract point).length)) 0) ∧
    0 ≤ l.illuminate point normal objects := by
  refine ⟨fun h => illuminate_occluded l point normal objects h, fun h => ?_, ?_⟩
  · rw [illuminate_clear l point normal objects h, ifPosEqMax]
  · by_cases h : l.occludes point objects
    · rw [illuminate_occluded l point normal objects h]
    · rw [illuminate_clear l point normal objects h, ifPosEqMax]
      exact le_max_right _ _

theorem light_illuminate_behavior_witness :
    (Light.mk ⟨0, 0, 10⟩ 1).illuminate ⟨0, 0, 0⟩ ⟨0, 1, 0⟩ [Object.sphere ⟨⟨0, 0, 5⟩, 1, mat0⟩] = 0 ∧
    (Light.mk ⟨0, 0, 10⟩ (400 * Real.pi)).illuminate ⟨0, 0, 0⟩ ⟨0, 0, 1⟩ [] = 1 := by
  have hsub : (Vec.mk 0 0 10).subtract ⟨0, 0, 0⟩ = ⟨0, 0, 10⟩ := by
    apply Vec.ext <;> simp [Vec.subtract]
  have hdirTen : ((Vec.mk 0 0 10).subtract ⟨0, 0, 0⟩).normalize = ⟨0, 0, 1⟩ := by
    rw [hsub]
    exact znormalizePos 10 (by norm_num)
  have hlenTen : ((Vec.mk 0 0 10).subtract ⟨0, 0, 0⟩).length = 10 := by
    rw [hsub]
    exact lengthEval _ 10 (by norm_num) (by norm_num)
  constructor
  · apply (light_illuminate_behavior (Light.mk ⟨0, 0, 10⟩ 1) ⟨0, 0, 0⟩ ⟨0, 1, 0⟩ _).1
    refine ⟨Object.sphere ⟨⟨0, 0, 5⟩, 1, mat0⟩, by simp, 4, ?_, by norm_num, ?_⟩
    · show (Sphere.mk ⟨0, 0, 5⟩ 1 mat0).intersect
        ⟨⟨0, 0, 0⟩, ((Vec.mk 0 0 10).subtract ⟨0, 0, 0⟩).normalize⟩ = some 4
      rw [hdirTen, zsphereIntersectPos mat0 5 1 0 1 one_pos zero_le_one]
      norm_num
    · show (4:ℝ) < ((Vec.mk 0 0 10).subtract ⟨0, 0, 0⟩).length
      rw [hlenTen]
      norm_num
  · have h := (light_illuminate_behavior (Light.mk ⟨0, 0, 10⟩ (400 * Real.pi))
      ⟨0, 0, 0⟩ ⟨0, 0, 1⟩ []).2.1 (by simp)
    rw [h]
    show max (400 * Real.pi *
        (((Vec.mk 0 0 10).subtract ⟨0, 0, 0⟩).dot ⟨0, 0, 1⟩ /
          ((Vec.mk 0 0 10).subtract ⟨0, 0, 0⟩).length) /
        (4 * Real.pi * sqr ((Vec.mk 0 0 10).subtract ⟨0, 0, 0⟩).length)) 0 = 1
    rw [hsub] at hlenTen ⊢
    rw [hlenTen]
    have hdot : (Vec.mk 0 0 10).dot ⟨0, 0, 1⟩ = 10 := by simp [Vec.dot]
    rw [hdot]
    have hX : 400 * Real.pi * ((10:ℝ) / 10) / (4 * Real.pi * sqr 10) = 1 := by
      have hpi := Real.pi_ne_zero
      simp only [sqr]
      field_simp
      ring
    rw [hX]
    exact max_eq_left zero_le_one

/-- Material and nearest-hit facts shared by the remaining witnesses. -/
lemma zsphere5_hit (m : Material) :
    nearestHit [Object.sphere ⟨⟨0, 0, 5⟩, 1, m⟩] rayZ =
      some (4, Object.sphere ⟨⟨0, 0, 5⟩, 1, m⟩) := by
  apply nearestHitSingleton
  show (Sphere.mk ⟨0, 0, 5⟩ 1 m).intersect ⟨⟨0, 0, 0⟩, ⟨0, 0, 1⟩⟩ = some 4
  rw [zsphereIntersectPos m 5 1 0 1 one_pos zero_le_one]
  norm_num

/-- C1: whenever the nearest-hit search succeeds and at least one bounce
remains, the tracer returns shade.scale(1 − reflectance) plus the per-channel
product of the recursive reflection color (black on a recursive miss, via
getD) and the albedo, where shade is the base color scaled by the summed
light energy and albedo is the base color scaled by reflectance/255. -/
theorem trace_hit_composition (objects : List Object) (lights : List Light) (rnd : ℕ → Vec)
    (ray : Ray) (rc : ℤ) (t : ℝ) (obj : Object) (hrc : 1 ≤ rc)
    (hhit : nearestHit objects ray = some (t, obj)) :
    trace objects lights rnd ray rc =
      some ((((obj.colorAt (ray.at t)).scale
          ((lights.map fun light =>
            light.illuminate (ray.at t) (obj.surfaceNormal (ray.at t)) objects).sum)).scale
          (1 - obj.material.reflectance)).add
        ⟨((trace objects lights (fun k => rnd (k + 1))
              ⟨(ray.at t).add ((obj.surfaceNormal (ray.at t)).scale 1e-10),
                obj.material.scatter ray (ray.at t) (obj.surfaceNormal (ray.at t)) (rnd 0)⟩
              (rc - 1)).getD ⟨0, 0, 0⟩).r *
            ((obj.colorAt (ray.at t)).scale (obj.material.reflectance / 255)).r,
          ((trace objects lights (fun k => rnd (k + 1))
              ⟨(ray.at t).add ((obj.surfaceNormal (ray.at t)).scale 1e-10),
                obj.material.scatter ray (ray.at t) (obj.surfaceNormal (ray.at t)) (rnd 0)⟩
              (rc - 1)).getD ⟨0, 0, 0⟩).g *
            ((obj.colorAt (ray.at t)).scale (obj.material.reflectance / 255)).g,
          ((trace objects lights (fun k => rnd (k + 1))
              ⟨(ray.at t).add ((obj.surfaceNormal (ray.at t)).scale 1e-10),
                obj.material.scatter ray (ray.at t) (obj.surfaceNormal (ray.at t)) (rnd 0)⟩
              (rc - 1)).getD ⟨0, 0, 0⟩).b *
            ((obj.colorAt (ray.at t)).scale (obj.material.reflectance / 255)).b⟩) := by
  rw [trace_hit objects lights rnd ray (by omega) hhit,
    foldlAddMap (fun light =>
      light.illuminate (ray.at t) (obj.surfaceNormal (ray.at t)) objects) lights 0,
    zero_add]

/-- A half-reflective colored material for the C1 witness. -/
def matC1 : Material := BlurryReflectiveMaterial ⟨255, 0, 50⟩ (1 / 2)

theorem trace_hit_composition_witness :
    trace [Object.sphere ⟨⟨0, 0, 5⟩, 1, matC1⟩] [] rndZero rayZ 1 = some ⟨0, 0, 0⟩ := by
  have h := trace_hit_composition [Object.sphere ⟨⟨0, 0, 5⟩, 1, matC1⟩] [] rndZero rayZ 1 4
    (Object.sphere ⟨⟨0, 0, 5⟩, 1, matC1⟩) (by norm_num) (zsphere5_hit matC1)
  rw [h, trace_nonpos _ _ _ _ (by norm_num : (1:ℤ) - 1 ≤ 0)]
  simp [Color.scale, Color.add]

/-- C8: when the hit object's material has reflectance 0, the traced color is
exactly the directly shaded color — base color scaled by the summed light
energy — with the reflection contribution identically zero whatever the
recursive call returns. -/
theorem trace_zero_reflectance (objects : List Object) (lights : List Light) (rnd : ℕ → Vec)
    (ray : Ray) (rc : ℤ) (t : ℝ) (obj : Object) (hrc : 1 ≤ rc)
    (hhit : nearestHit objects ray = some (t, obj))
    (hrefl : obj.material.reflectance = 0) :
    trace objects lights rnd ray rc =
      some ((obj.colorAt (ray.at t)).scale
        ((lights.map fun light =>
          light.illuminate (ray.at t) (obj.surfaceNormal (ray.at t)) objects).sum)) := by
  rw [trace_hit objects lights rnd ray (by omega) hhit,
    foldlAddMap (fun light =>
      light.illuminate (ray.at t) (obj.surfaceNormal (ray.at t)) objects) lights 0,
    zero_add, hrefl]
  congr 1
  apply Color.ext <;> simp [Color.scale, Color.add]

theorem trace_zero_reflectance_witness :
    trace [Object.sphere ⟨⟨0, 0, 5⟩, 1, mat0⟩] [] rndZero rayZ 1 = some ⟨0, 0, 0⟩ := by
  have h := trace_zero_reflectance [Object.sphere ⟨⟨0, 0, 5⟩, 1, mat0⟩] [] rndZero rayZ 1 4
    (Object.sphere ⟨⟨0, 0, 5⟩, 1, mat0⟩) (by norm_num) (zsphere5_hit mat0) rfl
  rw [h]
  simp [Color.scale]

/-- C10: Sphere.intersect normalizes the direction internally, so positively
scaling a nonzero direction leaves the result unchanged; the returned t is a
distance along the unit direction, so when the stored direction is unit the
hit point lies on the sphere surface; a concrete non-unit ray (direction
(0,0,2)) still returns t = 4 but its at(4) lies at distance 3, not 1, from
the center, showing the surface guarantee needs a unit stored direction. -/
theorem sphere_intersect_normalized_direction :
    (∀ (s : Sphere) (o d : Vec) (k : ℝ), d ≠ ⟨0, 0, 0⟩ → 0 < k →
      s.intersect ⟨o, d.scale k⟩ = s.intersect ⟨o, d⟩) ∧
    (∀ (s : Sphere) (ray : Ray) (t : ℝ), 0 ≤ s.radius → ray.direction.length = 1 →
      s.intersect ray = some t → ((ray.at t).subtract s.center).length = s.radius) ∧
    ((Sphere.mk ⟨0, 0, 5⟩ 1 mat0).intersect ⟨⟨0, 0, 0⟩, ⟨0, 0, 2⟩⟩ = some 4 ∧
      ((Ray.at ⟨⟨0, 0, 0⟩, ⟨0, 0, 2⟩⟩ 4).subtract ⟨0, 0, 5⟩).length = 3) := by
  refine ⟨fun s o d k _ hk => sphereIntersect_scale s o d hk,
    fun s ray t h1 h2 h3 => sphereIntersect_onSurface s ray h1 h2 h3, ?_, ?_⟩
  · rw [zsphereIntersectPos mat0 5 1 0 2 (by norm_num) zero_le_one]
    norm_num
  · have hat : (Ray.at ⟨⟨0, 0, 0⟩, ⟨0, 0, 2⟩⟩ 4).subtract ⟨0, 0, 5⟩ = ⟨0, 0, 3⟩ := by
      apply Vec.ext <;> simp [Ray.at, Vec.add, Vec.scale, Vec.subtract] <;> norm_num
    rw [hat]
    exact lengthEval _ 3 (by norm_num) (by norm_num)

theorem sphere_intersect_normalized_direction_witness :
    ((Vec.mk 0 0 1 ≠ ⟨0, 0, 0⟩ ∧ (0:ℝ) < 2) ∧
      (Sphere.mk ⟨0, 0, 5⟩ 1 mat0).intersect ⟨⟨0, 0, 0⟩, (Vec.mk 0 0 1).scale 2⟩ =
        (Sphere.mk ⟨0, 0, 5⟩ 1 mat0).intersect ⟨⟨0, 0, 0⟩, ⟨0, 0, 1⟩⟩) ∧
    (((0:ℝ) ≤ (Sphere.mk ⟨0, 0, 5⟩ 1 mat0).radius ∧
        (Ray.direction ⟨⟨0, 0, 0⟩, ⟨0, 0, 1⟩⟩).length = 1 ∧
        (Sphere.mk ⟨0, 0, 5⟩ 1 mat0).intersect ⟨⟨0, 0, 0⟩, ⟨0, 0, 1⟩⟩ = some 4) ∧
      ((Ray.at ⟨⟨0, 0, 0⟩, ⟨0, 0, 1⟩⟩ 4).subtract (Sphere.mk ⟨0, 0, 5⟩ 1 mat0).center).length =
        (Sphere.mk ⟨0, 0, 5⟩ 1 mat0).radius) := by
  have hne : Vec.mk 0 0 1 ≠ ⟨0, 0, 0⟩ := by
    intro hEq
    have := congrArg Vec.z hEq
    norm_num at this
  have hlen : (Ray.direction ⟨⟨0, 0, 0⟩, ⟨0, 0, 1⟩⟩).length = 1 :=
    lengthEval _ 1 (by norm_num) (by norm_num)
  have hint : (Sphere.mk ⟨0, 0, 5⟩ 1 mat0).intersect ⟨⟨0, 0, 0⟩, ⟨0, 0, 1⟩⟩ = some 4 := by
    rw [zsphereIntersectPos mat0 5 1 0 1 one_pos zero_le_one]
    norm_num
  refine ⟨⟨⟨hne, by norm_num⟩,
    sphere_intersect_normalized_direction.1 _ ⟨0, 0, 0⟩ ⟨0, 0, 1⟩ 2 hne (by norm_num)⟩,
    ⟨⟨by norm_num, hlen, hint⟩,
    sphere_intersect_normalized_direction.2.1 _ _ 4 (by norm_num) hlen hint⟩⟩

/-! C9 machinery: a two-sphere scene in which the Math.random() fuzz of
BlurryReflectiveMaterial.scatter changes the rendered pixel color. -/

/-- A fully reflective white material: its shade term vanishes and its albedo
is (1,1,1), so the traced color is exactly the reflected color. -/
def matWhiteFull : Material := BlurryReflectiveMaterial ⟨255, 255, 255⟩ 1

/-- A plain red diffuse-looking material with zero reflectance. -/
def matRedDull : Material := BlurryReflectiveMaterial ⟨255, 0, 0⟩ 0

/-- The mirror sphere in front of the camera. -/
def objA : Object := Object.sphere ⟨⟨0, 0, 5⟩, 1, matWhiteFull⟩

/-- The red sphere behind the camera, seen only in the reflection. -/
def objB : Object := Object.sphere ⟨⟨0, 0, -5⟩, 1, matRedDull⟩

def sceneObjects : List Object := [objA, objB]

/-- The light illuminating the red sphere. -/
def lightC9 : Light := ⟨⟨0, 0, -2⟩, 16 * Real.pi⟩

def sceneLights : List Light := [lightC9]

def sceneCamera : Camera := ⟨⟨0, 0, 0⟩, Film.make ⟨0, 0, 1⟩ ⟨2, -1, 1⟩⟩

/-- A random stream drawing (0, 0, 1/2) every time. -/
def rndHalf : ℕ → Vec := fun _ => ⟨0, 0, 1 / 2⟩

lemma cx9_camera : sceneCamera.trace 0 0 = rayZ := by
  have hproj : sceneCamera.film.project 0 0 = ⟨0, 0, 1⟩ := by
    apply Vec.ext <;> simp [sceneCamera, Film.make, Film.project]
  unfold Camera.trace
  rw [hproj]
  have hsub : (Vec.mk 0 0 1).subtract sceneCamera.eye = ⟨0, 0, 1⟩ := by
    apply Vec.ext <;> simp [sceneCamera, Vec.subtract]
  rw [hsub, znormalizePos 1 one_pos]
  simp [sceneCamera, rayZ]

/-- The surface normal of the back sphere at any z-axis point above its
center. -/
lemma cx9_normalB (zp : ℝ) (hz5 : 0 < zp + 5) :
    objB.surfaceNormal ⟨0, 0, zp⟩ = ⟨0, 0, 1⟩ := by
  show ((Vec.mk 0 0 zp).subtract ⟨0, 0, -5⟩).normalize = ⟨0, 0, 1⟩
  have hs : (Vec.mk 0 0 zp).subtract ⟨0, 0, -5⟩ = ⟨0, 0, zp + 5⟩ := by
    apply Vec.ext <;> simp [Vec.subtract] <;> ring
  rw [hs]
  exact znormalizePos _ hz5

/-- Direct light on the back sphere at hit point (0,0,zp): the shadow ray
toward the light is unobstructed and the Lambertian term evaluates to
4/dist² with dist = -2 - zp. -/
lemma cx9_illumB (zp : ℝ) (hz5 : 0 < zp + 5) (hlt : zp < -2) (hB2 : -4 - zp ≤ 1e-10) :
    lightC9.illuminate ⟨0, 0, zp⟩ ⟨0, 0, 1⟩ sceneObjects = 4 / ((-2 - zp) * (-2 - zp)) := by
  have hdd : (0:ℝ) < -2 - zp := by linarith
  have hsub : lightC9.center.subtract ⟨0, 0, zp⟩ = ⟨0, 0, -2 - zp⟩ := by
    apply Vec.ext <;> simp [lightC9, Vec.subtract]
  have hdir : (lightC9.center.subtract ⟨0, 0, zp⟩).normalize = ⟨0, 0, 1⟩ := by
    rw [hsub]
    exact znormalizePos _ hdd
  have hlen : (lightC9.center.subtract ⟨0, 0, zp⟩).length = -2 - zp := by
    rw [hsub]
    exact lengthEval _ _ hdd.le (by ring)
  have hA : objA.intersect ⟨⟨0, 0, zp⟩, ⟨0, 0, 1⟩⟩ = some (4 - zp) := by
    show (Sphere.mk ⟨0, 0, 5⟩ 1 matWhiteFull).intersect ⟨⟨0, 0, zp⟩, ⟨0, 0, 1⟩⟩ = some (4 - zp)
    rw [zsphereIntersectPos matWhiteFull 5 1 zp 1 one_pos zero_le_one,
      if_pos (by linarith : (0:ℝ) ≤ -(zp - 5) - 1)]
    simp only [Option.some.injEq]
    ring
  have hnocc : ¬ lightC9.occludes ⟨0, 0, zp⟩ sceneObjects := by
    rintro ⟨o, ho, t, hint, ht1, ht2⟩
    rw [hdir] at hint
    rw [hlen] at ht2
    simp only [sceneObjects, List.mem_cons, List.not_mem_nil, or_false] at ho
    rcases ho with ho | ho
    · subst ho
      rw [hA] at hint
      have ht := Option.some.inj hint
      linarith
    · subst ho
      have hint2 : (Sphere.mk ⟨0, 0, -5⟩ 1 matRedDull).intersect ⟨⟨0, 0, zp⟩, ⟨0, 0, 1⟩⟩ =
          some t := hint
      rw [zsphereIntersectPos matRedDull (-5) 1 zp 1 one_pos zero_le_one,
        if_neg (by push_neg; linarith : ¬ (0:ℝ) ≤ -(zp - -5) - 1)] at hint2
      by_cases hr2 : (0:ℝ) ≤ -(zp - -5) + 1
      · rw [if_pos hr2] at hint2
        have ht := Option.some.inj hint2
        have : t = -4 - zp := by rw [← ht]; ring
        linarith
      · rw [if_neg hr2] at hint2
        exact absurd hint2 (by simp)
  rw [illuminate_clear _ _ _ _ hnocc, hlen, hsub]
  have hdot : (Vec.mk 0 0 (-2 - zp)).dot ⟨0, 0, 1⟩ = -2 - zp := by simp [Vec.dot]
  rw [hdot, show lightC9.power = 16 * Real.pi from rfl]
  have hval : 16 * Real.pi * ((-2 - zp) / (-2 - zp)) / (4 * Real.pi * sqr (-2 - zp)) =
      4 / ((-2 - zp) * (-2 - zp)) := by
    rw [div_self hdd.ne']
    simp only [sqr]
    rw [mul_one]
    field_simp
    ring
  rw [hval, if_pos (div_pos (by norm_num) (mul_pos hdd hdd))]

/-- One bounce inside the reflection: a ray leaving the front sphere
downward along -z hits the back sphere and returns its shaded red color,
whatever random stream is threaded through (the back material has zero
reflectance, so the deeper recursion is multiplied away). -/
lemma cx9_traceB (rnd : ℕ → Vec) (dz zp : ℝ) (hdz : dz < 0)
    (hat : Ray.at ⟨⟨0, 0, 4 - 1e-10⟩, ⟨0, 0, dz⟩⟩ (8 - 1e-10) = ⟨0, 0, zp⟩)
    (hz5 : 0 < zp + 5) (hlt : zp < -2) (hB2 : -4 - zp ≤ 1e-10) :
    trace sceneObjects sceneLights rnd ⟨⟨0, 0, 4 - 1e-10⟩, ⟨0, 0, dz⟩⟩ 49 =
      some ⟨255 * (4 / ((-2 - zp) * (-2 - zp))), 0, 0⟩ := by
  have hhit : nearestHit sceneObjects ⟨⟨0, 0, 4 - 1e-10⟩, ⟨0, 0, dz⟩⟩ =
      some (8 - 1e-10, objB) := by
    apply nearestHitPairSecond
    · show (Sphere.mk ⟨0, 0, 5⟩ 1 matWhiteFull).intersect ⟨⟨0, 0, 4 - 1e-10⟩, ⟨0, 0, dz⟩⟩ = none
      rw [zsphereIntersectNeg matWhiteFull 5 1 (4 - 1e-10) dz hdz zero_le_one]
      norm_num
    · show (Sphere.mk ⟨0, 0, -5⟩ 1 matRedDull).intersect ⟨⟨0, 0, 4 - 1e-10⟩, ⟨0, 0, dz⟩⟩ =
        some (8 - 1e-10)
      rw [zsphereIntersectNeg matRedDull (-5) 1 (4 - 1e-10) dz hdz zero_le_one]
      norm_num
  rw [trace_hit sceneObjects sceneLights rnd _ (by norm_num) hhit, hat,
    cx9_normalB zp hz5]
  have henergy : sceneLights.foldl
      (fun acc light => acc + light.illuminate ⟨0, 0, zp⟩ ⟨0, 0, 1⟩ sceneObjects) 0 =
      4 / ((-2 - zp) * (-2 - zp)) := by
    simp only [sceneLights, List.foldl_cons, List.foldl_nil, zero_add]
    exact cx9_illumB zp hz5 hlt hB2
  rw [henergy]
  congr 1
  apply Color.ext <;>
    simp [objB, matRedDull, BlurryReflectiveMaterial, Object.colorAt, Sphere.colorAt,
      Object.material, Color.scale, Color.add] <;> ring

/-- Top-level bounce: the camera ray hits the mirror sphere; the traced
color is the color returned along the scattered reflection ray. -/
lemma cx9_top (rnd : ℕ → Vec) (dz zp : ℝ)
    (hscatter : objA.material.scatter rayZ ⟨0, 0, 4⟩ ⟨0, 0, -1⟩ (rnd 0) = ⟨0, 0, dz⟩)
    (hB : trace sceneObjects sceneLights (fun k => rnd (k + 1))
        ⟨⟨0, 0, 4 - 1e-10⟩, ⟨0, 0, dz⟩⟩ 49 =
      some ⟨255 * (4 / ((-2 - zp) * (-2 - zp))), 0, 0⟩) :
    trace sceneObjects sceneLights rnd rayZ 50 =
      some ⟨255 * (4 / ((-2 - zp) * (-2 - zp))), 0, 0⟩ := by
  have hhit : nearestHit sceneObjects rayZ = some (4, objA) := by
    apply nearestHitPairFirst
    · show (Sphere.mk ⟨0, 0, 5⟩ 1 matWhiteFull).intersect ⟨⟨0, 0, 0⟩, ⟨0, 0, 1⟩⟩ = some 4
      rw [zsphereIntersectPos matWhiteFull 5 1 0 1 one_pos zero_le_one]
      norm_num
    · show (Sphere.mk ⟨0, 0, -5⟩ 1 matRedDull).intersect ⟨⟨0, 0, 0⟩, ⟨0, 0, 1⟩⟩ = none
      rw [zsphereIntersectPos matRedDull (-5) 1 0 1 one_pos zero_le_one]
      norm_num
  rw [trace_hit sceneObjects sceneLights rnd rayZ (by norm_num) hhit]
  have hat : rayZ.at 4 = ⟨0, 0, 4⟩ := by
    apply Vec.ext <;> simp [rayZ, Ray.at, Vec.add, Vec.scale]
  rw [hat]
  have hnA : objA.surfaceNormal ⟨0, 0, 4⟩ = ⟨0, 0, -1⟩ := by
    show ((Vec.mk 0 0 4).subtract ⟨0, 0, 5⟩).normalize = ⟨0, 0, -1⟩
    have hs : (Vec.mk 0 0 4).subtract ⟨0, 0, 5⟩ = ⟨0, 0, -1⟩ := by
      apply Vec.ext <;> simp [Vec.subtract] <;> norm_num
    rw [hs]
    exact znormalizeNeg (-1) (by norm_num)
  rw [hnA, hscatter]
  have hjust : (Vec.mk 0 0 4).add ((Vec.mk 0 0 (-1)).scale 1e-10) = ⟨0, 0, 4 - 1e-10⟩ := by
    apply Vec.ext <;> simp [Vec.add, Vec.scale] <;> norm_num
  rw [hjust, show (50:ℤ) - 1 = 49 by norm_num, hB]
  congr 1
  apply Color.ext <;>
    simp [objA, matWhiteFull, BlurryReflectiveMaterial, Object.colorAt, Sphere.colorAt,
      Object.material, Color.scale, Color.add] <;> ring

/-- Run with the all-zero random stream: pure mirror reflection; the
reflected hit point is (0,0,-4) at distance 2 from the light. -/
lemma cx9_run1 : trace sceneObjects sceneLights rndZero rayZ 50 = some ⟨255, 0, 0⟩ := by
  have hscatter : objA.material.scatter rayZ ⟨0, 0, 4⟩ ⟨0, 0, -1⟩ (rndZero 0) = ⟨0, 0, -1⟩ := by
    show blurryScatter rayZ ⟨0, 0, 4⟩ ⟨0, 0, -1⟩ (rndZero 0) = ⟨0, 0, -1⟩
    apply Vec.ext <;>
      simp [blurryScatter, rayZ, rndZero, Vec.dot, Vec.subtract, Vec.scale, Vec.add] <;>
      norm_num
  have hat : Ray.at ⟨⟨0, 0, 4 - 1e-10⟩, ⟨0, 0, -1⟩⟩ (8 - 1e-10) = ⟨0, 0, -4⟩ := by
    apply Vec.ext <;> simp [Ray.at, Vec.add, Vec.scale] <;> norm_num
  have hB := cx9_traceB (fun k => rndZero (k + 1)) (-1) (-4) (by norm_num) hat
    (by norm_num) (by norm_num) (by norm_num)
  have h := cx9_top rndZero (-1) (-4) hscatter hB
  rw [h]
  norm_num

/-- Run with the random stream drawing (0,0,1/2): the fuzz tilts the
reflection to direction (0,0,-19/20); the reflected hit point moves to
z = -18/5 - 5e-12, closer to the light, so the pixel is brighter. -/
lemma cx9_run2 : trace sceneObjects sceneLights rndHalf rayZ 50 =
    some ⟨255 * (4 / ((-2 - (-(18/5) - 5e-12)) * (-2 - (-(18/5) - 5e-12)))), 0, 0⟩ := by
  have hscatter : objA.material.scatter rayZ ⟨0, 0, 4⟩ ⟨0, 0, -1⟩ (rndHalf 0) =
      ⟨0, 0, -(19/20)⟩ := by
    show blurryScatter rayZ ⟨0, 0, 4⟩ ⟨0, 0, -1⟩ (rndHalf 0) = ⟨0, 0, -(19/20)⟩
    apply Vec.ext <;>
      simp [blurryScatter, rayZ, rndHalf, Vec.dot, Vec.subtract, Vec.scale, Vec.add] <;>
      norm_num
  have hat : Ray.at ⟨⟨0, 0, 4 - 1e-10⟩, ⟨0, 0, -(19/20)⟩⟩ (8 - 1e-10) =
      ⟨0, 0, -(18/5) - 5e-12⟩ := by
    apply Vec.ext <;> simp [Ray.at, Vec.add, Vec.scale] <;> norm_num
  have hB := cx9_traceB (fun k => rndHalf (k + 1)) (-(19/20)) (-(18/5) - 5e-12)
    (by norm_num) hat (by norm_num) (by norm_num) (by norm_num)
  exact cx9_top rndHalf (-(19/20)) (-(18/5) - 5e-12) hscatter hB

/-- C9 counterexample: the same scene and the same primary ray rendered with
two different (and individually plausible) Math.random() draw sequences
produce different pixel colors, because BlurryReflectiveMaterial.scatter
adds the random fuzz jitter to the reflected direction. -/
theorem render_random_counterexample :
    renderPixel sceneObjects sceneLights rndZero sceneCamera 0 0 ≠
      renderPixel sceneObjects sceneLights rndHalf sceneCamera 0 0 := by
  simp only [renderPixel, cx9_camera]
  rw [cx9_run1, cx9_run2]
  simp only [Option.getD_some]
  intro hEq
  have hr := congrArg Color.r hEq
  simp only at hr
  have hdd : (-2 - (-(18/5) - 5e-12)) = (8/5 + 5e-12 : ℝ) := by norm_num
  rw [hdd] at hr
  norm_num at hr

/-- C9 amended: each pixel's color is a deterministic function of the scene,
the primary ray, and the random draws consumed by the material scatter calls
(at most one draw triple per bounce): two runs whose random streams agree on
the first remainingCalls draws produce identical colors. -/
theorem trace_pure_given_randomness (objects : List Object) (lights : List Light)
    (rnd1 rnd2 : ℕ → Vec) (ray : Ray) (rc : ℤ)
    (h : ∀ k, k < rc.toNat → rnd1 k = rnd2 k) :
    trace objects lights rnd1 ray rc = trace objects lights rnd2 ray rc :=
  trace_congr_aux rc.toNat objects lights rnd1 rnd2 ray rc le_rfl h

/-- A random stream that agrees with rndZero on the first draws only. -/
def rndLate : ℕ → Vec := fun k => if k < 5 then ⟨0, 0, 0⟩ else ⟨1, 1, 1⟩

theorem trace_pure_given_randomness_witness :
    (∀ k, k < (2:ℤ).toNat → rndZero k = rndLate k) ∧
    trace [Object.sphere ⟨⟨0, 0, 5⟩, 1, matC1⟩] [] rndZero rayZ 2 =
      trace [Object.sphere ⟨⟨0, 0, 5⟩, 1, matC1⟩] [] rndLate rayZ 2 := by
  have h : ∀ k, k < (2:ℤ).toNat → rndZero k = rndLate k := by
    intro k hk
    have hk5 : k < 5 := by omega
    simp [rndZero, rndLate, hk5]
  exact ⟨h, trace_pure_given_randomness [Object.sphere ⟨⟨0, 0, 5⟩, 1, matC1⟩] []
    rndZero rndLate rayZ 2 h⟩

end

end Raze
